import Mathlib

/-!
Verification of the cvc character-set validator (src/src/main.c).

The input buffer is modelled as a list of byte values (`List Nat`,
each element in 0..255).  The C program stores the input in a
NUL-terminated string, so every pass stops at the first 0 byte; the
embeddings below reproduce that by checking for the byte 0 exactly
where the C loops test `*p != '\0'`.  A read of `*(p + 1)` one past
the last list element yields the terminating NUL, modelled by
`List.headD _ 0`.
-/

namespace CVC

/-- The `eol_t` enumeration from main.c. -/
inductive Eol where
  | EOL_AUTO_NA
  | EOL_CR
  | EOL_LF
  | EOL_CRLF
deriving DecidableEq

/-- Exit code `RETURN_VALID`. -/
def RETURN_VALID : Nat := 0

/-- Exit code `RETURN_INVALID`. -/
def RETURN_INVALID : Nat := 1

/-- Exit code `RETURN_ERROR_EOL`. -/
def RETURN_ERROR_EOL : Nat := 2

/-- Exit code `EXIT_SUCCESS` as used for the empty-input short circuit. -/
def EXIT_SUCCESS : Nat := 0

/-- The character-policy configuration: the four command-line overrides
that determine the contents of the `valid_chars` table in main.c. -/
structure Policy where
  allow_ff : Bool
  allow_vt : Bool
  allow_apa : Bool
  forbid_ht : Bool
deriving DecidableEq

/-- The policy when no character option is given on the command line. -/
def default_policy : Policy :=
  { allow_ff := false, allow_vt := false, allow_apa := false, forbid_ht := false }

/-- The `valid_chars` table of main.c (lines 302-344) as a function:
printable ASCII 0x20..0x7E is preset to true, HT/LF/CR are allowed,
VT/FF are rejected, and the bytes for dollar, at and backtick are
rejected; the command-line options `--ff`, `--vt`, `--all` and `--noht`
flip the corresponding entries. -/
def valid_chars (pol : Policy) (b : Nat) : Bool :=
  if b = 36 ∨ b = 64 ∨ b = 96 then pol.allow_apa
  else if b = 11 then pol.allow_vt
  else if b = 12 then pol.allow_ff
  else if b = 9 then !pol.forbid_ht
  else if b = 10 ∨ b = 13 then true
  else decide (32 ≤ b ∧ b ≤ 126)

/-- The scanner's violation test, main.c line 488:
`(*p < 0) || (*p > 126) || (!valid_chars[(int)*p])`.  In the byte
model, a signed `char` is negative exactly when the byte value is at
least 128, so the first two disjuncts together are `126 < b`. -/
def is_violation (pol : Policy) (b : Nat) : Bool :=
  decide (126 < b) || !(valid_chars pol b)

/-- Loop body of `determine_eol` (main.c lines 131-164): `eol` is the
accumulator variable, the list is the remaining input starting at `p`. -/
def determine_eol_go : List Nat → Eol → Eol
  | [], eol => eol
  | b :: rest, eol =>
    if b = 0 then eol
    else if b = 10 then
      if eol = .EOL_CR then .EOL_CRLF else .EOL_LF
    else if b = 13 then determine_eol_go rest .EOL_CR
    else if eol = .EOL_CR then .EOL_CR
    else determine_eol_go rest eol

/-- `determine_eol` from main.c: detect the EOL style of a buffer. -/
def determine_eol (buf : List Nat) : Eol :=
  determine_eol_go buf .EOL_AUTO_NA

/-- The `validate_eol` loop for the single-byte styles CR and LF
(main.c lines 196-227 with `eol_len == 1`): `exp` is `eol_chars[0]`,
`inv` is `eol_invalid`. -/
def validate_single_go (exp inv : Nat) : List Nat → Nat → Nat
  | [], _ => 0
  | b :: rest, line =>
    if b = 0 then 0
    else if b = exp then validate_single_go exp inv rest (line + 1)
    else if b = inv then line
    else validate_single_go exp inv rest line

/-- The `validate_eol` loop for the CRLF style (main.c lines 196-227
with `eol_len == 2`): on CR the next byte must be LF (a read past the
last byte sees the terminating NUL, hence the `13 :: rest` fallthrough
returning `line` also when `rest` is empty or starts with a non-LF
byte); a bare LF returns the current line. -/
def validate_crlf_go : List Nat → Nat → Nat
  | [], _ => 0
  | 13 :: 10 :: rest, line => validate_crlf_go rest (line + 1)
  | 13 :: _, line => line
  | 10 :: _, line => line
  | 0 :: _, _ => 0
  | _ :: rest, line => validate_crlf_go rest line

/-- `validate_eol` from main.c (lines 166-230): returns the 1-based
line of the first EOL inconsistency, or 0 when consistent; the
`EOL_AUTO_NA` style returns 0 without looking at the buffer. -/
def validate_eol (buf : List Nat) (eol : Eol) : Nat :=
  match eol with
  | .EOL_CR => validate_single_go 13 10 buf 1
  | .EOL_LF => validate_single_go 10 13 buf 1
  | .EOL_CRLF => validate_crlf_go buf 1
  | .EOL_AUTO_NA => 0

/-- `is_eol` from main.c (lines 232-260), applied to the remaining
buffer whose head is `*p`; for CRLF the byte `*(p + 1)` is the head of
the tail, or the terminating NUL when the tail is empty. -/
def is_eol (l : List Nat) (eol : Eol) : Bool :=
  match eol with
  | .EOL_CR => decide (l.headD 0 = 13)
  | .EOL_LF => decide (l.headD 0 = 10)
  | .EOL_CRLF => decide (l.headD 0 = 13) && decide (l.tail.headD 0 = 10)
  | .EOL_AUTO_NA => false

/-- Result of the scanning loop of main.c (lines 471-501): the final
`errors` counter, the violations `(line, byte)` in the order the loop
finds them, and the lines at which the blank-separator `putchar` fires. -/
structure ScanResult where
  errors : Nat
  viols : List (Nat × Nat)
  blanks : List Nat
deriving DecidableEq

/-- The scanning loop of main.c (lines 471-501), fuelled: `line` and
`last_line` are the loop variables of the same names.  On an EOL match
the loop advances by two bytes for CRLF and one otherwise; `last_line`
is updated only in verbose mode, exactly as in the C code.  The fuel
argument only bounds the recursion depth; `scan` always supplies the
length of the list, which is enough for the loop to finish. -/
def scan_go (pol : Policy) (e : Eol) (verbose : Bool) :
    Nat → List Nat → Nat → Nat → ScanResult
  | 0, _, _, _ => ⟨0, [], []⟩
  | _ + 1, [], _, _ => ⟨0, [], []⟩
  | fuel + 1, b :: rest, line, last_line =>
    if b = 0 then ⟨0, [], []⟩
    else if is_eol (b :: rest) e then
      let l' := if e = .EOL_CRLF then rest.tail else rest
      let r := scan_go pol e verbose fuel l' (line + 1) last_line
      if last_line = line then { r with blanks := line :: r.blanks } else r
    else if is_violation pol b then
      let ll' := if verbose then line else last_line
      let r := scan_go pol e verbose fuel rest line ll'
      ⟨r.errors + 1, (line, b) :: r.viols, r.blanks⟩
    else scan_go pol e verbose fuel rest line last_line

/-- The scanning pass of main.c, started like the C loop with
`line = 1` and `last_line = 0` by `cvc_run` below. -/
def scan (pol : Policy) (e : Eol) (verbose : Bool)
    (buf : List Nat) (line last_line : Nat) : ScanResult :=
  scan_go pol e verbose buf.length buf line last_line

/-- Parsing of the `--eol` option value (main.c lines 348-377). -/
def parse_eol_opt (s : String) : Option Eol :=
  if s = "LF" then some .EOL_LF
  else if s = "CRLF" then some .EOL_CRLF
  else if s = "CR" then some .EOL_CRLF
  else if s = "AUTO" then some .EOL_AUTO_NA
  else none

/-- main.c lines 451-456: when the configured style is `EOL_AUTO_NA`
the style is determined from the buffer, otherwise it is used as is. -/
def resolve_eol (cfg : Eol) (buf : List Nat) : Eol :=
  if cfg = .EOL_AUTO_NA then determine_eol buf else cfg

/-- The validation pipeline of main (lines 438-507) after the input has
been read: the empty-input short circuit, EOL resolution, the
consistency check, the scan, and the final exit code. -/
def cvc_run (pol : Policy) (cfg : Eol) (verbose : Bool) (buf : List Nat) : Nat :=
  if buf.length = 0 then EXIT_SUCCESS
  else
    let e := resolve_eol cfg buf
    if validate_eol buf e ≠ 0 then RETURN_ERROR_EOL
    else if (scan pol e verbose buf 1 0).errors = 0 then RETURN_VALID
    else RETURN_INVALID

end CVC

namespace CVC

/-! Helper lemmas: single-step evaluation of `validate_crlf_go`. -/

theorem vcg_eval_pair (r : List Nat) (line : Nat) :
    validate_crlf_go (13 :: 10 :: r) line = validate_crlf_go r (line + 1) := rfl

theorem vcg_eval_cr (x : Nat) (r : List Nat) (line : Nat) (hx : x ≠ 10) :
    validate_crlf_go (13 :: x :: r) line = line := by
  conv_lhs => unfold validate_crlf_go
  split <;> simp_all

theorem vcg_eval_cr_headD (r : List Nat) (line : Nat) (h : r.headD 0 ≠ 10) :
    validate_crlf_go (13 :: r) line = line := by
  cases r with
  | nil => rfl
  | cons x t => exact vcg_eval_cr x t line (by simpa using h)

theorem vcg_eval_lf (r : List Nat) (line : Nat) :
    validate_crlf_go (10 :: r) line = line := rfl

theorem vcg_eval_nul (r : List Nat) (line : Nat) :
    validate_crlf_go (0 :: r) line = 0 := rfl

theorem vcg_eval_other (b : Nat) (r : List Nat) (line : Nat)
    (h0 : b ≠ 0) (h10 : b ≠ 10) (h13 : b ≠ 13) :
    validate_crlf_go (b :: r) line = validate_crlf_go r line := by
  conv_lhs => unfold validate_crlf_go
  split <;> simp_all

/-! Helper lemmas about the content of the buffer up to the first NUL. -/

theorem headD_takeWhile (l : List Nat) :
    (l.takeWhile (fun b => b != 0)).headD 0 = l.headD 0 := by
  cases l with
  | nil => rfl
  | cons b rest =>
    by_cases h0 : b = 0
    · subst h0; simp [List.takeWhile_cons]
    · simp [List.takeWhile_cons, h0]

theorem is_eol_takeWhile (b : Nat) (rest : List Nat) (e : Eol) :
    is_eol (b :: rest.takeWhile (fun x => x != 0)) e = is_eol (b :: rest) e := by
  cases e <;>
    simp only [is_eol, List.tail_cons, List.headD_cons, headD_takeWhile]

theorem det_go_takeWhile (l : List Nat) :
    ∀ acc : Eol, determine_eol_go l acc =
      determine_eol_go (l.takeWhile (fun b => b != 0)) acc := by
  induction l with
  | nil => intro acc; rfl
  | cons b rest ih =>
    intro acc
    by_cases h0 : b = 0
    · subst h0; simp [determine_eol_go, List.takeWhile_cons]
    · by_cases h10 : b = 10
      · subst h10; simp [determine_eol_go, List.takeWhile_cons]
      · by_cases h13 : b = 13
        · subst h13; simp [determine_eol_go, List.takeWhile_cons, ih]
        · by_cases hacc : acc = .EOL_CR
          · simp [determine_eol_go, List.takeWhile_cons, h0, h10, h13, hacc]
          · simp [determine_eol_go, List.takeWhile_cons, h0, h10, h13, hacc, ih]

theorem vsg_takeWhile (exp inv : Nat) (l : List Nat) :
    ∀ line : Nat, validate_single_go exp inv l line =
      validate_single_go exp inv (l.takeWhile (fun b => b != 0)) line := by
  induction l with
  | nil => intro line; rfl
  | cons b rest ih =>
    intro line
    by_cases h0 : b = 0
    · subst h0; simp [validate_single_go, List.takeWhile_cons]
    · have htw : (b :: rest).takeWhile (fun x => x != 0)
          = b :: rest.takeWhile (fun x => x != 0) := by
        simp [List.takeWhile_cons, h0]
      rw [htw]
      simp only [validate_single_go]
      rw [if_neg h0, if_neg h0]
      by_cases hexp : b = exp
      · rw [if_pos hexp, if_pos hexp, ih]
      · rw [if_neg hexp, if_neg hexp]
        by_cases hinv : b = inv
        · rw [if_pos hinv, if_pos hinv]
        · rw [if_neg hinv, if_neg hinv, ih]

end CVC

namespace CVC

theorem vcg_takeWhile (l : List Nat) (line : Nat) :
    validate_crlf_go l line =
      validate_crlf_go (l.takeWhile (fun b => b != 0)) line := by
  induction l, line using validate_crlf_go.induct with
  | case1 line => rfl
  | case2 rest line ih =>
    have htw : (13 :: 10 :: rest).takeWhile (fun b => b != 0)
        = 13 :: 10 :: rest.takeWhile (fun b => b != 0) := by
      simp [List.takeWhile_cons]
    rw [htw, vcg_eval_pair, vcg_eval_pair, ih]
  | case3 rest line h =>
    have hhd : rest.headD 0 ≠ 10 := by
      cases rest with
      | nil => simp
      | cons x r =>
        simp only [List.headD_cons]
        intro e
        exact h r (by rw [e])
    have htw : (13 :: rest).takeWhile (fun b => b != 0)
        = 13 :: rest.takeWhile (fun b => b != 0) := by
      simp [List.takeWhile_cons]
    rw [htw, vcg_eval_cr_headD rest line hhd,
        vcg_eval_cr_headD _ line (by rw [headD_takeWhile]; exact hhd)]
  | case4 rest line =>
    have htw : (10 :: rest).takeWhile (fun b => b != 0)
        = 10 :: rest.takeWhile (fun b => b != 0) := by
      simp [List.takeWhile_cons]
    rw [htw, vcg_eval_lf, vcg_eval_lf]
  | case5 rest =>
    have htw : (0 :: rest).takeWhile (fun b => b != 0) = ([] : List Nat) := by
      simp [List.takeWhile_cons]
    rw [htw, vcg_eval_nul]
    rfl
  | case6 b rest line h1 h2 h3 h4 ih =>
    have hb13 : b ≠ 13 := fun e => h2 e
    have hb10 : b ≠ 10 := fun e => h3 e
    have hb0 : b ≠ 0 := fun e => h4 e
    have htw : (b :: rest).takeWhile (fun x => x != 0)
        = b :: rest.takeWhile (fun x => x != 0) := by
      simp [List.takeWhile_cons, hb0]
    rw [htw, vcg_eval_other b rest line hb0 hb10 hb13,
        vcg_eval_other b _ line hb0 hb10 hb13, ih]

/-- Modelled from the spec, section 4.2, CRLF case: walk the buffer
with a 1-based line counter; on CR require the immediately following
byte to be LF — if so increment the line and advance two bytes, if not
return the current line number; on a bare LF return the current line
number; on normal exit return 0.  The spec has no notion of an input
NUL terminator, so every byte other than CR and LF is simply skipped. -/
def crlf_check_spec : List Nat → Nat → Nat
  | [], _ => 0
  | 13 :: 10 :: rest, line => crlf_check_spec rest (line + 1)
  | 13 :: _, line => line
  | 10 :: _, line => line
  | _ :: rest, line => crlf_check_spec rest line

theorem spec_eval_cr (x : Nat) (r : List Nat) (line : Nat) (hx : x ≠ 10) :
    crlf_check_spec (13 :: x :: r) line = line := by
  conv_lhs => unfold crlf_check_spec
  split <;> simp_all

theorem spec_eval_cr_headD (r : List Nat) (line : Nat) (h : r.headD 0 ≠ 10) :
    crlf_check_spec (13 :: r) line = line := by
  cases r with
  | nil => rfl
  | cons x t => exact spec_eval_cr x t line (by simpa using h)

theorem spec_eval_other (b : Nat) (r : List Nat) (line : Nat)
    (h10 : b ≠ 10) (h13 : b ≠ 13) :
    crlf_check_spec (b :: r) line = crlf_check_spec r line := by
  conv_lhs => unfold crlf_check_spec
  split <;> simp_all

theorem vcg_eq_crlf_check_spec (l : List Nat) (line : Nat) :
    (0 : Nat) ∉ l → validate_crlf_go l line = crlf_check_spec l line := by
  induction l, line using validate_crlf_go.induct with
  | case1 line => intro h; rfl
  | case2 rest line ih =>
    intro h
    have h' : (0 : Nat) ∉ rest := by
      intro hm; exact h (by simp [hm])
    rw [vcg_eval_pair]
    show validate_crlf_go rest (line + 1) = crlf_check_spec (13 :: 10 :: rest) line
    rw [ih h']
    rfl
  | case3 rest line h =>
    intro hm
    have hhd : rest.headD 0 ≠ 10 := by
      cases rest with
      | nil => simp
      | cons x r =>
        simp only [List.headD_cons]
        intro e
        exact h r (by rw [e])
    rw [vcg_eval_cr_headD rest line hhd, spec_eval_cr_headD rest line hhd]
  | case4 rest line => intro h; rfl
  | case5 rest => intro h; simp at h
  | case6 b rest line h1 h2 h3 h4 ih =>
    intro hm
    have hb13 : b ≠ 13 := fun e => h2 e
    have hb10 : b ≠ 10 := fun e => h3 e
    have hb0 : b ≠ 0 := fun e => h4 e
    have h' : (0 : Nat) ∉ rest := by
      intro hmem; exact hm (by simp [hmem])
    rw [vcg_eval_other b rest line hb0 hb10 hb13,
        spec_eval_other b rest line hb10 hb13, ih h']

end CVC

namespace CVC

/-! Single-step evaluation lemmas for the scanning loop. -/

theorem scan_go_nul (pol : Policy) (e : Eol) (v : Bool) (n : Nat)
    (rest : List Nat) (line ll : Nat) :
    scan_go pol e v (n + 1) (0 :: rest) line ll = ⟨0, [], []⟩ := by
  simp [scan_go]

theorem scan_go_eol (pol : Policy) (e : Eol) (v : Bool) (n : Nat)
    (b : Nat) (rest : List Nat) (line ll : Nat)
    (h0 : b ≠ 0) (he : is_eol (b :: rest) e = true) :
    scan_go pol e v (n + 1) (b :: rest) line ll =
      (let r := scan_go pol e v n
        (if e = .EOL_CRLF then rest.tail else rest) (line + 1) ll
       if ll = line then { r with blanks := line :: r.blanks } else r) := by
  simp [scan_go, h0, he]

theorem scan_go_viol (pol : Policy) (e : Eol) (v : Bool) (n : Nat)
    (b : Nat) (rest : List Nat) (line ll : Nat)
    (h0 : b ≠ 0) (he : is_eol (b :: rest) e = false) (hv : is_violation pol b = true) :
    scan_go pol e v (n + 1) (b :: rest) line ll =
      (let r := scan_go pol e v n rest line (if v then line else ll)
       ⟨r.errors + 1, (line, b) :: r.viols, r.blanks⟩) := by
  simp [scan_go, h0, he, hv]

theorem scan_go_other (pol : Policy) (e : Eol) (v : Bool) (n : Nat)
    (b : Nat) (rest : List Nat) (line ll : Nat)
    (h0 : b ≠ 0) (he : is_eol (b :: rest) e = false) (hv : is_violation pol b = false) :
    scan_go pol e v (n + 1) (b :: rest) line ll = scan_go pol e v n rest line ll := by
  simp [scan_go, h0, he, hv]

theorem is_eol_crlf_cons (b : Nat) (rest : List Nat)
    (he : is_eol (b :: rest) .EOL_CRLF = true) :
    b = 13 ∧ ∃ r, rest = 10 :: r := by
  simp only [is_eol, List.headD_cons, List.tail_cons, Bool.and_eq_true,
    decide_eq_true_eq] at he
  refine ⟨he.1, ?_⟩
  cases rest with
  | nil => simp at he
  | cons x r =>
    simp only [List.headD_cons] at he
    exact ⟨r, by rw [he.2]⟩

theorem scan_go_fuel (pol : Policy) (e : Eol) (v : Bool) :
    ∀ n m (l : List Nat) (line ll : Nat), l.length ≤ n → l.length ≤ m →
      scan_go pol e v n l line ll = scan_go pol e v m l line ll := by
  intro n
  induction n with
  | zero =>
    intro m l line ll hn _
    have : l = [] := List.length_eq_zero.mp (Nat.le_zero.mp hn)
    subst this
    cases m <;> rfl
  | succ n ih =>
    intro m l line ll hn hm
    cases l with
    | nil => cases m <;> rfl
    | cons b rest =>
      cases m with
      | zero => simp at hm
      | succ m =>
        have hrn : rest.length ≤ n := by
          simpa [Nat.succ_le_succ_iff] using hn
        have hrm : rest.length ≤ m := by
          simpa [Nat.succ_le_succ_iff] using hm
        by_cases h0 : b = 0
        · subst h0; rw [scan_go_nul, scan_go_nul]
        · by_cases he : is_eol (b :: rest) e = true
          · rw [scan_go_eol pol e v n b rest line ll h0 he,
                scan_go_eol pol e v m b rest line ll h0 he]
            have htl : (if e = .EOL_CRLF then rest.tail else rest).length
                ≤ rest.length := by
              by_cases hc : e = .EOL_CRLF <;> simp [hc, List.length_tail]
            rw [ih m _ (line + 1) ll (le_trans htl hrn) (le_trans htl hrm)]
          · rw [Bool.not_eq_true] at he
            by_cases hv : is_violation pol b = true
            · rw [scan_go_viol pol e v n b rest line ll h0 he hv,
                  scan_go_viol pol e v m b rest line ll h0 he hv,
                  ih m rest line (if v then line else ll) hrn hrm]
            · rw [Bool.not_eq_true] at hv
              rw [scan_go_other pol e v n b rest line ll h0 he hv,
                  scan_go_other pol e v m b rest line ll h0 he hv,
                  ih m rest line ll hrn hrm]

end CVC

namespace CVC

theorem blanks_update_errors (c : Prop) [Decidable c] (r : ScanResult) (line : Nat) :
    (if c then { r with blanks := line :: r.blanks } else r).errors = r.errors := by
  by_cases hc : c <;> simp [hc]

theorem blanks_update_viols (c : Prop) [Decidable c] (r : ScanResult) (line : Nat) :
    (if c then { r with blanks := line :: r.blanks } else r).viols = r.viols := by
  by_cases hc : c <;> simp [hc]

theorem scan_go_takeWhile (pol : Policy) (e : Eol) (v : Bool) :
    ∀ n (l : List Nat) (line ll : Nat),
      scan_go pol e v n l line ll =
        scan_go pol e v n (l.takeWhile (fun b => b != 0)) line ll := by
  intro n
  induction n with
  | zero => intro l line ll; rfl
  | succ n ih =>
    intro l line ll
    cases l with
    | nil => rfl
    | cons b rest =>
      by_cases h0 : b = 0
      · subst h0
        rw [scan_go_nul]
        have htw : ((0 : Nat) :: rest).takeWhile (fun b => b != 0)
            = ([] : List Nat) := by
          simp [List.takeWhile_cons]
        rw [htw]
        rfl
      · have htw : ((b : Nat) :: rest).takeWhile (fun x => x != 0)
            = b :: rest.takeWhile (fun x => x != 0) := by
          simp [List.takeWhile_cons, h0]
        rw [htw]
        by_cases he : is_eol (b :: rest) e = true
        · have he' : is_eol (b :: rest.takeWhile (fun x => x != 0)) e = true := by
            rw [is_eol_takeWhile]; exact he
          by_cases hc : e = .EOL_CRLF
          · subst hc
            obtain ⟨hb, r, hr⟩ := is_eol_crlf_cons b rest he
            subst hr
            rw [scan_go_eol pol _ v n b _ line ll h0 he,
                scan_go_eol pol _ v n b _ line ll h0 he']
            have htr : ((10 : Nat) :: r).takeWhile (fun x => x != 0)
                = 10 :: r.takeWhile (fun x => x != 0) := by
              simp [List.takeWhile_cons]
            rw [htr]
            simp [List.tail_cons, ih r (line + 1) ll]
          · rw [scan_go_eol pol e v n b rest line ll h0 he,
                scan_go_eol pol e v n b _ line ll h0 he']
            simp [hc, ih rest (line + 1) ll]
        · rw [Bool.not_eq_true] at he
          have he' : is_eol (b :: rest.takeWhile (fun x => x != 0)) e = false := by
            rw [is_eol_takeWhile]; exact he
          by_cases hv : is_violation pol b = true
          · rw [scan_go_viol pol e v n b rest line ll h0 he hv,
                scan_go_viol pol e v n b _ line ll h0 he' hv,
                ih rest line (if v then line else ll)]
          · rw [Bool.not_eq_true] at hv
            rw [scan_go_other pol e v n b rest line ll h0 he hv,
                scan_go_other pol e v n b _ line ll h0 he' hv,
                ih rest line ll]

theorem scan_go_errors_congr (pol : Policy) (e : Eol) :
    ∀ n (l : List Nat) (line ll₁ ll₂ : Nat) (v₁ v₂ : Bool),
      (scan_go pol e v₁ n l line ll₁).errors =
        (scan_go pol e v₂ n l line ll₂).errors := by
  intro n
  induction n with
  | zero => intro l line ll₁ ll₂ v₁ v₂; rfl
  | succ n ih =>
    intro l line ll₁ ll₂ v₁ v₂
    cases l with
    | nil => rfl
    | cons b rest =>
      by_cases h0 : b = 0
      · subst h0; rw [scan_go_nul, scan_go_nul]
      · by_cases he : is_eol (b :: rest) e = true
        · rw [scan_go_eol pol e v₁ n b rest line ll₁ h0 he,
              scan_go_eol pol e v₂ n b rest line ll₂ h0 he]
          simp only [blanks_update_errors]
          exact ih _ (line + 1) ll₁ ll₂ v₁ v₂
        · rw [Bool.not_eq_true] at he
          by_cases hv : is_violation pol b = true
          · rw [scan_go_viol pol e v₁ n b rest line ll₁ h0 he hv,
                scan_go_viol pol e v₂ n b rest line ll₂ h0 he hv]
            simp only []
            rw [ih rest line (if v₁ then line else ll₁) (if v₂ then line else ll₂) v₁ v₂]
          · rw [Bool.not_eq_true] at hv
            rw [scan_go_other pol e v₁ n b rest line ll₁ h0 he hv,
                scan_go_other pol e v₂ n b rest line ll₂ h0 he hv]
            exact ih rest line ll₁ ll₂ v₁ v₂

end CVC

namespace CVC

theorem scan_go_viols_lb (pol : Policy) (e : Eol) (v : Bool) :
    ∀ n (l : List Nat) (line ll : Nat) (p : Nat × Nat),
      p ∈ (scan_go pol e v n l line ll).viols → line ≤ p.1 := by
  intro n
  induction n with
  | zero => intro l line ll p hp; simp [scan_go] at hp
  | succ n ih =>
    intro l line ll p hp
    cases l with
    | nil => simp [scan_go] at hp
    | cons b rest =>
      by_cases h0 : b = 0
      · subst h0; rw [scan_go_nul] at hp; simp at hp
      · by_cases he : is_eol (b :: rest) e = true
        · rw [scan_go_eol pol e v n b rest line ll h0 he] at hp
          simp only [blanks_update_viols] at hp
          exact Nat.le_of_succ_le (ih _ (line + 1) ll p hp)
        · rw [Bool.not_eq_true] at he
          by_cases hv : is_violation pol b = true
          · rw [scan_go_viol pol e v n b rest line ll h0 he hv] at hp
            simp only [List.mem_cons] at hp
            cases hp with
            | inl hp => subst hp; exact Nat.le_refl line
            | inr hp => exact ih rest line (if v then line else ll) p hp
          · rw [Bool.not_eq_true] at hv
            rw [scan_go_other pol e v n b rest line ll h0 he hv] at hp
            exact ih rest line ll p hp

theorem scan_go_viols_pairwise (pol : Policy) (e : Eol) (v : Bool) :
    ∀ n (l : List Nat) (line ll : Nat),
      List.Pairwise (fun p q => p.1 ≤ q.1) (scan_go pol e v n l line ll).viols := by
  intro n
  induction n with
  | zero => intro l line ll; simp [scan_go]
  | succ n ih =>
    intro l line ll
    cases l with
    | nil => simp [scan_go]
    | cons b rest =>
      by_cases h0 : b = 0
      · subst h0; rw [scan_go_nul]; simp
      · by_cases he : is_eol (b :: rest) e = true
        · rw [scan_go_eol pol e v n b rest line ll h0 he]
          simp only [blanks_update_viols]
          exact ih _ (line + 1) ll
        · rw [Bool.not_eq_true] at he
          by_cases hv : is_violation pol b = true
          · rw [scan_go_viol pol e v n b rest line ll h0 he hv]
            simp only [List.pairwise_cons]
            constructor
            · intro q hq
              exact scan_go_viols_lb pol e v n rest line (if v then line else ll) q hq
            · exact ih rest line (if v then line else ll)
          · rw [Bool.not_eq_true] at hv
            rw [scan_go_other pol e v n b rest line ll h0 he hv]
            exact ih rest line ll

theorem scan_go_viols_byte_ne_nul (pol : Policy) (e : Eol) (v : Bool) :
    ∀ n (l : List Nat) (line ll : Nat) (p : Nat × Nat),
      p ∈ (scan_go pol e v n l line ll).viols → p.2 ≠ 0 := by
  intro n
  induction n with
  | zero => intro l line ll p hp; simp [scan_go] at hp
  | succ n ih =>
    intro l line ll p hp
    cases l with
    | nil => simp [scan_go] at hp
    | cons b rest =>
      by_cases h0 : b = 0
      · subst h0; rw [scan_go_nul] at hp; simp at hp
      · by_cases he : is_eol (b :: rest) e = true
        · rw [scan_go_eol pol e v n b rest line ll h0 he] at hp
          simp only [blanks_update_viols] at hp
          exact ih _ (line + 1) ll p hp
        · rw [Bool.not_eq_true] at he
          by_cases hv : is_violation pol b = true
          · rw [scan_go_viol pol e v n b rest line ll h0 he hv] at hp
            simp only [List.mem_cons] at hp
            cases hp with
            | inl hp => subst hp; exact h0
            | inr hp => exact ih rest line (if v then line else ll) p hp
          · rw [Bool.not_eq_true] at hv
            rw [scan_go_other pol e v n b rest line ll h0 he hv] at hp
            exact ih rest line ll p hp

/-! Lemmas about EOL detection on buffers without terminators. -/

theorem det_go_no_eol (l : List Nat) (h : ∀ b ∈ l, b ≠ 10 ∧ b ≠ 13) :
    determine_eol_go l .EOL_AUTO_NA = .EOL_AUTO_NA := by
  induction l with
  | nil => rfl
  | cons b rest ih =>
    have hb := h b (by simp)
    by_cases h0 : b = 0
    · subst h0; simp [determine_eol_go]
    · simp only [determine_eol_go, if_neg h0, if_neg hb.1, if_neg hb.2]
      simp only [reduceCtorEq, if_false]
      exact ih (fun x hx => h x (by simp [hx]))

theorem det_go_trailing_cr (l : List Nat)
    (h : ∀ b ∈ l, b ≠ 0 ∧ b ≠ 10 ∧ b ≠ 13) :
    determine_eol_go (l ++ [13]) .EOL_AUTO_NA = .EOL_CR := by
  induction l with
  | nil => rfl
  | cons b rest ih =>
    have hb := h b (by simp)
    simp only [List.cons_append, determine_eol_go,
      if_neg hb.1, if_neg hb.2.1, if_neg hb.2.2]
    simp only [reduceCtorEq, if_false]
    exact ih (fun x hx => h x (by simp [hx]))

theorem det_go_first_lf (l : List Nat) (h10 : (10 : Nat) ∈ l)
    (h13 : (13 : Nat) ∉ l) (h0 : (0 : Nat) ∉ l) :
    determine_eol_go l .EOL_AUTO_NA = .EOL_LF := by
  induction l with
  | nil => simp at h10
  | cons b rest ih =>
    have hb0 : b ≠ 0 := fun e => h0 (by simp [e])
    have hb13 : b ≠ 13 := fun e => h13 (by simp [e])
    by_cases hb10 : b = 10
    · subst hb10
      simp [determine_eol_go]
    · simp only [determine_eol_go, if_neg hb0, if_neg hb10, if_neg hb13]
      simp only [reduceCtorEq, if_false]
      have h10' : (10 : Nat) ∈ rest := by
        cases List.mem_cons.mp h10 with
        | inl hx => exact absurd hx.symm hb10
        | inr hx => exact hx
      exact ih h10' (fun hx => h13 (by simp [hx])) (fun hx => h0 (by simp [hx]))

theorem vsg_lf_no_cr (l : List Nat) (h13 : (13 : Nat) ∉ l) :
    ∀ line : Nat, validate_single_go 10 13 l line = 0 := by
  induction l with
  | nil => intro line; rfl
  | cons b rest ih =>
    intro line
    have hb13 : b ≠ 13 := fun e => h13 (by simp [e])
    have h13' : (13 : Nat) ∉ rest := fun hx => h13 (by simp [hx])
    by_cases h0 : b = 0
    · subst h0; simp [validate_single_go]
    · by_cases h10 : b = 10
      · subst h10
        simp only [validate_single_go, if_neg h0, if_pos rfl]
        exact ih h13' (line + 1)
      · simp only [validate_single_go, if_neg h0, if_neg h10, if_neg hb13]
        exact ih h13' line

end CVC

namespace CVC

/-- C1 counterexample: a buffer consisting of a lone trailing CR makes
`determine_eol` return `EOL_CR`, not the unspecified style the claim
asserts. -/
theorem c1_lone_trailing_cr_counterexample :
    determine_eol [13] = Eol.EOL_CR ∧ Eol.EOL_CR ≠ Eol.EOL_AUTO_NA := by
  decide

/-- C1 (amended): if the buffer content before the first NUL contains
neither LF nor CR, `determine_eol` returns `EOL_AUTO_NA` (unspecified);
appending a lone trailing CR to such content makes it return `EOL_CR`
instead. -/
theorem c1_detect_unresolved_amended (buf : List Nat)
    (h : ∀ b ∈ buf.takeWhile (fun x => x != 0), b ≠ 10 ∧ b ≠ 13) :
    determine_eol buf = Eol.EOL_AUTO_NA
    ∧ determine_eol (buf.takeWhile (fun x => x != 0) ++ [13]) = Eol.EOL_CR := by
  constructor
  · rw [determine_eol, det_go_takeWhile]
    exact det_go_no_eol _ h
  · apply det_go_trailing_cr
    intro b hb
    have hb0 : b ≠ 0 := by
      have := List.mem_takeWhile_imp hb
      simpa using this
    exact ⟨hb0, (h b hb).1, (h b hb).2⟩

/-- C1 witness: the amended theorem applied to the terminator-free
buffer consisting of the single byte `a`. -/
theorem c1_detect_unresolved_amended_witness :
    (∀ b ∈ ([97] : List Nat).takeWhile (fun x => x != 0), b ≠ 10 ∧ b ≠ 13)
    ∧ (determine_eol [97] = Eol.EOL_AUTO_NA
      ∧ determine_eol (([97] : List Nat).takeWhile (fun x => x != 0) ++ [13])
          = Eol.EOL_CR) :=
  ⟨by decide, c1_detect_unresolved_amended [97] (by decide)⟩

/-- C2: the option value `CR` is parsed to the internal style
`EOL_CRLF`, not `EOL_CR`, so a CR-terminated buffer checked under it is
rejected with the EOL-mismatch exit code. -/
theorem c2_cr_option_maps_to_crlf :
    parse_eol_opt "CR" = some Eol.EOL_CRLF
    ∧ parse_eol_opt "CR" ≠ some Eol.EOL_CR
    ∧ cvc_run default_policy Eol.EOL_CRLF false [97, 13] = RETURN_ERROR_EOL := by
  refine ⟨by decide, by decide, by decide⟩

end CVC

namespace CVC

/-- C3 counterexample: for the buffer `a NUL LF` the claim's CRLF rule
places the first bare LF on line 1, but `validate_eol` stops at the
embedded NUL and reports consistency (0). -/
theorem c3_nul_byte_counterexample :
    validate_eol [97, 0, 10] Eol.EOL_CRLF = 0
    ∧ crlf_check_spec [97, 0, 10] 1 = 1 := by
  decide

/-- C3 (amended): for every buffer free of NUL bytes, checking with
style CRLF returns exactly the line number prescribed by the spec's
CRLF rule (first bare LF, or CR not followed by LF), and on the input
`a CR LF b LF c CR LF` it returns 2. -/
theorem c3_validate_crlf_matches_rule (buf : List Nat) (h : (0 : Nat) ∉ buf) :
    validate_eol buf Eol.EOL_CRLF = crlf_check_spec buf 1
    ∧ validate_eol [97, 13, 10, 98, 10, 99, 13, 10] Eol.EOL_CRLF = 2 :=
  ⟨vcg_eq_crlf_check_spec buf 1 h, by decide⟩

/-- C3 witness: the amended theorem applied to the spec's end-to-end
example input. -/
theorem c3_validate_crlf_matches_rule_witness :
    ((0 : Nat) ∉ ([97, 13, 10, 98, 10, 99, 13, 10] : List Nat))
    ∧ (validate_eol [97, 13, 10, 98, 10, 99, 13, 10] Eol.EOL_CRLF
        = crlf_check_spec [97, 13, 10, 98, 10, 99, 13, 10] 1
      ∧ validate_eol [97, 13, 10, 98, 10, 99, 13, 10] Eol.EOL_CRLF = 2) :=
  ⟨by decide, c3_validate_crlf_matches_rule [97, 13, 10, 98, 10, 99, 13, 10] (by decide)⟩

/-- C4 counterexample: the buffer `NUL LF` contains an LF and no CR,
yet detection returns the unspecified style, because it stops at the
NUL before ever seeing the LF. -/
theorem c4_nul_byte_counterexample :
    (10 : Nat) ∈ ([0, 10] : List Nat)
    ∧ (13 : Nat) ∉ ([0, 10] : List Nat)
    ∧ determine_eol [0, 10] = Eol.EOL_AUTO_NA
    ∧ Eol.EOL_AUTO_NA ≠ Eol.EOL_LF := by
  decide

/-- C4 (amended): for every buffer whose content before the first NUL
contains at least one LF and no CR, detection returns LF and validation
against LF returns 0 (consistent). -/
theorem c4_lf_only_detect_validate (buf : List Nat)
    (h10 : (10 : Nat) ∈ buf.takeWhile (fun x => x != 0))
    (h13 : (13 : Nat) ∉ buf.takeWhile (fun x => x != 0)) :
    determine_eol buf = Eol.EOL_LF ∧ validate_eol buf Eol.EOL_LF = 0 := by
  have h0 : (0 : Nat) ∉ buf.takeWhile (fun x => x != 0) := by
    intro hx
    have := List.mem_takeWhile_imp hx
    simp at this
  constructor
  · rw [determine_eol, det_go_takeWhile]
    exact det_go_first_lf _ h10 h13 h0
  · show validate_single_go 10 13 buf 1 = 0
    rw [vsg_takeWhile]
    exact vsg_lf_no_cr _ h13 1

/-- C4 witness: the amended theorem applied to the buffer `hi LF`. -/
theorem c4_lf_only_detect_validate_witness :
    ((10 : Nat) ∈ ([104, 105, 10] : List Nat).takeWhile (fun x => x != 0))
    ∧ ((13 : Nat) ∉ ([104, 105, 10] : List Nat).takeWhile (fun x => x != 0))
    ∧ (determine_eol [104, 105, 10] = Eol.EOL_LF
      ∧ validate_eol [104, 105, 10] Eol.EOL_LF = 0) :=
  ⟨by decide, by decide, c4_lf_only_detect_validate [104, 105, 10] (by decide) (by decide)⟩

/-- C5: the scan's total error count does not depend on the verbose
flag; verbosity only changes the `last_line` bookkeeping used for
printing, never the classification or the counter. -/
theorem c5_total_errors_verbose_independent (pol : Policy) (e : Eol) (buf : List Nat) :
    (scan pol e true buf 1 0).errors = (scan pol e false buf 1 0).errors :=
  scan_go_errors_congr pol e buf.length buf 1 0 0 true false

/-- C6: under the default policy the byte 0x24 (dollar) is classified
as a violation by the scanner, and with all printable ASCII permitted
it is not. -/
theorem c6_dollar_violation_default_not_apa :
    is_violation default_policy 36 = true
    ∧ is_violation ⟨false, false, true, false⟩ 36 = false
    ∧ (scan default_policy Eol.EOL_LF false [36] 1 0).errors = 1
    ∧ (scan ⟨false, false, true, false⟩ Eol.EOL_LF false [36] 1 0).errors = 0 := by
  decide

end CVC

namespace CVC

/-- C7: once the pipeline reaches the scanning pass (nonempty input and
consistent EOL), the run result is `RETURN_VALID` exactly when the
scan's error count is zero, and any positive count gives
`RETURN_INVALID`. -/
theorem c7_valid_iff_zero_errors (pol : Policy) (cfg : Eol) (v : Bool)
    (buf : List Nat) (h1 : buf ≠ [])
    (h2 : validate_eol buf (resolve_eol cfg buf) = 0) :
    (cvc_run pol cfg v buf = RETURN_VALID
      ↔ (scan pol (resolve_eol cfg buf) v buf 1 0).errors = 0)
    ∧ ((scan pol (resolve_eol cfg buf) v buf 1 0).errors ≠ 0
      → cvc_run pol cfg v buf = RETURN_INVALID) := by
  have hlen : ¬ buf.length = 0 := by
    simpa [List.length_eq_zero] using h1
  simp only [cvc_run, if_neg hlen, h2, ne_eq, not_true_eq_false, if_false]
  constructor
  · by_cases herr : (scan pol (resolve_eol cfg buf) v buf 1 0).errors = 0
    · simp [herr, RETURN_VALID]
    · simp [herr, RETURN_INVALID, RETURN_VALID]
  · intro herr
    simp [herr, RETURN_INVALID]

/-- C7 witness: the theorem applied to the one-byte buffer `a` with the
LF style fixed by configuration. -/
theorem c7_valid_iff_zero_errors_witness :
    (([97] : List Nat) ≠ [])
    ∧ validate_eol [97] (resolve_eol Eol.EOL_LF [97]) = 0
    ∧ ((cvc_run default_policy Eol.EOL_LF false [97] = RETURN_VALID
        ↔ (scan default_policy (resolve_eol Eol.EOL_LF [97]) false [97] 1 0).errors = 0)
      ∧ ((scan default_policy (resolve_eol Eol.EOL_LF [97]) false [97] 1 0).errors ≠ 0
        → cvc_run default_policy Eol.EOL_LF false [97] = RETURN_INVALID)) :=
  ⟨by decide, by decide,
    c7_valid_iff_zero_errors default_policy Eol.EOL_LF false [97] (by decide) (by decide)⟩

/-- C8: a zero-length input short-circuits the pipeline with the
success result, whatever the policy, configured style, or verbosity;
no detection, consistency check, or scan influences the outcome. -/
theorem c8_empty_input_success (pol : Policy) (cfg : Eol) (v : Bool) :
    cvc_run pol cfg v [] = EXIT_SUCCESS ∧ cvc_run pol cfg v [] = RETURN_VALID :=
  ⟨rfl, rfl⟩

/-- C9: the violations of a scan are recorded in buffer order with
non-decreasing line numbers: every violation's line number is at least
that of every earlier one. -/
theorem c9_viols_lines_monotone (pol : Policy) (e : Eol) (v : Bool) (buf : List Nat) :
    List.Pairwise (fun p q => p.1 ≤ q.1) (scan pol e v buf 1 0).viols :=
  scan_go_viols_pairwise pol e v buf.length buf 1 0

/-- C10: on a buffer containing a NUL byte, all three passes behave
exactly as on the content before the first NUL — detection,
consistency checking and scanning all agree with the truncated buffer —
and no recorded violation is ever the NUL byte itself. -/
theorem c10_nul_truncates_all_passes (pol : Policy) (e : Eol) (v : Bool)
    (buf : List Nat) (line ll : Nat) (h : (0 : Nat) ∈ buf) :
    determine_eol buf = determine_eol (buf.takeWhile (fun b => b != 0))
    ∧ validate_eol buf e = validate_eol (buf.takeWhile (fun b => b != 0)) e
    ∧ scan pol e v buf line ll = scan pol e v (buf.takeWhile (fun b => b != 0)) line ll
    ∧ ∀ p ∈ (scan pol e v buf line ll).viols, p.2 ≠ 0 := by
  refine ⟨det_go_takeWhile buf .EOL_AUTO_NA, ?_, ?_, ?_⟩
  · cases e with
    | EOL_AUTO_NA => rfl
    | EOL_CR => exact vsg_takeWhile 13 10 buf 1
    | EOL_LF => exact vsg_takeWhile 10 13 buf 1
    | EOL_CRLF => exact vcg_takeWhile buf 1
  · rw [scan, scan, scan_go_takeWhile]
    exact scan_go_fuel pol e v buf.length
      (buf.takeWhile (fun b => b != 0)).length _ line ll
      (List.takeWhile_sublist _).length_le (Nat.le_refl _)
  · intro p hp
    exact scan_go_viols_byte_ne_nul pol e v buf.length buf line ll p hp

/-- C10 witness: the theorem applied to the buffer `A NUL 0xC8`, whose
suffix after the NUL holds a byte that would otherwise be a violation. -/
theorem c10_nul_truncates_all_passes_witness :
    ((0 : Nat) ∈ ([65, 0, 200] : List Nat))
    ∧ (determine_eol [65, 0, 200]
        = determine_eol (([65, 0, 200] : List Nat).takeWhile (fun b => b != 0))
      ∧ validate_eol [65, 0, 200] Eol.EOL_LF
        = validate_eol (([65, 0, 200] : List Nat).takeWhile (fun b => b != 0)) Eol.EOL_LF
      ∧ scan default_policy Eol.EOL_LF true [65, 0, 200] 1 0
        = scan default_policy Eol.EOL_LF true
            (([65, 0, 200] : List Nat).takeWhile (fun b => b != 0)) 1 0
      ∧ ∀ p ∈ (scan default_policy Eol.EOL_LF true [65, 0, 200] 1 0).viols, p.2 ≠ 0) :=
  ⟨by decide,
   c10_nul_truncates_all_passes default_policy Eol.EOL_LF true [65, 0, 200] 1 0 (by decide)⟩

end CVC
